import Mathlib

/-!
# Document synchronisation in `MonacoEditor` (BaseEditor.jsx)

A shallow embedding of the `MonacoEditor` React component of
`app/components/MonacoEditor/MonacoReact/BaseEditor.jsx`:

* the content-change handler registered in `componentDidMount` (lines 66-80),
* the body of the binding `autorun` of `componentDidMount` (lines 82-129),
* `componentWillUnmount` (lines 138-154).

The collaborators (`monaco.editor`, the language client, `FileStore`, the
debounced dispatcher) are represented by the state they keep and by the list of
calls made on them, in call order. Two library functions are parameters:
lodash's `lowerCase`, and `uriToString`, the string form of `monaco.Uri.parse(s)`.
-/

namespace WebIDE

/-! ## Data model -/

/-- An ES `Map` with string keys, as its lookup function (`get` is `none` for
`undefined`). -/
structure StrMap (α : Type) where
  get : String → Option α

namespace StrMap

/-- The map with no entry. -/
def empty {α : Type} : StrMap α := ⟨fun _ => none⟩

/-- Result of `Map.prototype.set`. -/
def set {α : Type} (m : StrMap α) (k : String) (v : α) : StrMap α :=
  ⟨fun k2 => if k2 = k then some v else m.get k2⟩

/-- Result of `Map.prototype.delete`. -/
def delete {α : Type} (m : StrMap α) (k : String) : StrMap α :=
  ⟨fun k2 => if k2 = k then none else m.get k2⟩

/-- Result of `Map.prototype.has`: the key is present. -/
def has {α : Type} (m : StrMap α) (k : String) : Bool := (m.get k).isSome

end StrMap

/-- JavaScript truthiness of a value that is `undefined` or a string (what
`openeduri.get(path)` returns, the `tab` prop): `undefined` and the empty string
are falsy, every other string is truthy. -/
def truthy : Option String → Bool
  | none => false
  | some s => s != ""

/-- The file record referenced by `this.editor.file`. -/
structure FileRecord where
  id : String
  path : String
  content : String
  isSynced : Bool
deriving DecidableEq, Repr

/-- A monaco text model; `handle` stands for the identity of the object. -/
structure TextModel where
  handle : Nat
  value : String
  languageId : String
  uri : String
deriving DecidableEq, Repr

/-- An entry of `languageState.clients`: `_ROOT_URI_`, the state of `client`
(`none` when `client` is not set; `3` is `Running`) and the `openeduri` map from
file path to the content sent with the did-open. -/
structure LanguageClient where
  _ROOT_URI_ : String
  client : Option Nat
  openeduri : StrMap String

/-- What is shared by all editors: the client registry `languageState.clients`
and the model registry of `monaco.editor`, keyed by the string form of the
model's URI. `getModel` called with a string looks that very string up;
`createModel` called with `monaco.Uri.parse(s)` registers the model under the
string form of the parsed URI, written `uriToString s` below, and throws when a
model is registered under it already. `nextHandle` numbers the models created;
`disposeThrows uri` tells whether `dispose()` of the model registered under
`uri` throws; a `dispose()` that returns takes the model out of the registry. -/
structure World where
  clients : StrMap LanguageClient
  models : StrMap TextModel
  nextHandle : Nat
  disposeThrows : String → Bool

/-- The fields of `this.editor` (an `EditorInfo`) the component reads or writes. -/
structure EditorInfo where
  id : String
  file : Option FileRecord
  selection : Option (Nat × Nat × Nat × Nat)
  model : Option TextModel
deriving DecidableEq, Repr

/-- One `MonacoEditor` component instance: its own fields, the prop `active`, and
the prop `tab` as `componentDidMount` read it (`none` for `undefined`; line 70
tests its truthiness). -/
structure MonacoEditor where
  language : String
  editor : EditorInfo
  currentValue : Option String
  didmount : Bool
  uri : Option String
  active : Bool
  tab : Option String
deriving DecidableEq, Repr

/-- A call made on a collaborator. Protocol calls carry the registry key of the
language client they are made on. -/
inductive Effect where
  | createModel (value languageId uri : String)
  | dispose (uri : String)
  | setModel (model : TextModel)
  | setSelection (selection : Nat × Nat × Nat × Nat)
  | openTextDocument (client uri languageId text : String) (version : Nat)
  | closeTextDocument (client uri : String)
  | updateFile (id content : String)
  | debounced (command : String)
deriving DecidableEq, Repr

/-- What one run of a piece of component code leaves behind: the shared state,
the component instance, the calls made in order, and whether the run ended by
an exception. -/
structure Outcome where
  world : World
  self : MonacoEditor
  effects : List Effect
  threw : Bool

/-- What the content-change handler leaves behind: the component instance and
the calls made, in order. -/
structure HandlerOutcome where
  self : MonacoEditor
  effects : List Effect

/-- The document URI built on lines 97, 102, 105, 119 and 150 by the template
string made of `file://`, the client's `_ROOT_URI_` and the path. -/
def fileUri (languageClient : LanguageClient) (path : String) : String :=
  "file://" ++ languageClient._ROOT_URI_ ++ path

/-- The URI of the scratch model looked up on line 106. -/
def scratchUri (id : String) : String := "inmemory://model/" ++ id

/-! ## The component code -/

/-- The handler passed to `monacoEditor.onDidChangeModelContent` (lines 66-80).
`value` is what `monacoEditor.getValue()` returns when the event arrives. -/
def onDidChangeModelContent (self : MonacoEditor) (value : String) : HandlerOutcome :=
  let self1 := { self with currentValue := some value }
  match self1.editor.file with
  | some file =>
    if truthy self1.tab then
      { self := { self1 with
          editor := { self1.editor with file := some { file with isSynced := false } } }
        effects := [Effect.updateFile file.id value, Effect.debounced "file:save"] }
    else { self := self1, effects := [] }
  | none => { self := self1, effects := [] }

/-- Lines 97-108 of the binding autorun: look the model up under the document
URI string (line 97) and, when the lookup finds none, create it with the parsed
URI (lines 99-103). `uriToString s` is the string form of `monaco.Uri.parse(s)`.
The last component is the model handed on to `setModel`, or `none` when the run
ended by an exception: `createModel` throws because a model is registered under
the parsed URI, `tmpModel` is `null`, or `dispose` itself throws. -/
def lookupOrCreateModel (lowerCase uriToString : String → String) (w : World)
    (self : MonacoEditor) (languageClient : LanguageClient) (path content : String) :
    World × MonacoEditor × List Effect × Option TextModel :=
  match w.models.get (fileUri languageClient path) with
  | some model => (w, self, [], some model)
  | none =>
    let created := Effect.createModel content (lowerCase self.language)
      (fileUri languageClient path)
    match w.models.get (uriToString (fileUri languageClient path)) with
    | some _ => (w, self, [created], none)
    | none =>
      let model : TextModel :=
        { handle := w.nextHandle, value := content, languageId := lowerCase self.language,
          uri := uriToString (fileUri languageClient path) }
      let w1 : World :=
        { w with models := w.models.set (uriToString (fileUri languageClient path)) model,
                 nextHandle := w.nextHandle + 1 }
      let self1 : MonacoEditor :=
        { self with editor := { self.editor with model := some model },
                    uri := some (fileUri languageClient path) }
      match w1.models.get (scratchUri self.editor.id) with
      | none => (w1, self1, [created], none)
      | some _ =>
        if w1.disposeThrows (scratchUri self.editor.id) then
          (w1, self1, [created, Effect.dispose (scratchUri self.editor.id)], none)
        else
          ({ w1 with models := w1.models.delete (scratchUri self.editor.id) }, self1,
            [created, Effect.dispose (scratchUri self.editor.id)], some model)

/-- The shared state after `openeduri.set(path, content)` on the client
`languageClient` registered under `language` (line 125). -/
def World.setOpened (w : World) (language : String) (languageClient : LanguageClient)
    (path content : String) : World :=
  let registered : LanguageClient :=
    { languageClient with openeduri := languageClient.openeduri.set path content }
  { w with clients := w.clients.set language registered }

/-- The shared state after `openeduri.delete(path)` on the client
`languageClient` registered under `language` (line 147). -/
def World.deleteOpened (w : World) (language : String) (languageClient : LanguageClient)
    (path : String) : World :=
  let pruned : LanguageClient :=
    { languageClient with openeduri := languageClient.openeduri.delete path }
  { w with clients := w.clients.set language pruned }

/-- Lines 111-113 of the binding autorun: `setSelection` when the editor has a
selection. -/
def restoreSelection : Option (Nat × Nat × Nat × Nat) → List Effect
  | some selection => [Effect.setSelection selection]
  | none => []

/-- Lines 114-127 of the binding autorun: the did-open and its bookkeeping in
`openeduri`, for the client registered under `self.language`. -/
def sendDidOpen (lowerCase : String → String) (w : World) (self : MonacoEditor)
    (languageClient : LanguageClient) (path content : String) : World × List Effect :=
  if languageClient.client = some 3 ∧ self.active = true ∧ self.didmount = true then
    if !truthy (languageClient.openeduri.get path) then
      (w.setOpened self.language languageClient path content,
        [Effect.openTextDocument self.language (fileUri languageClient path)
          (lowerCase self.language) content 1])
    else (w, [])
  else (w, [])

/-- The body of the `autorun` of `componentDidMount` (lines 82-129), run once.
`lowerCase` is lodash's function of that name, `uriToString s` the string form
of `monaco.Uri.parse(s)`. -/
def bindingAutorun (lowerCase uriToString : String → String) (w : World)
    (self : MonacoEditor) : Outcome :=
  match w.clients.get self.language with
  | none => { world := w, self := self, effects := [], threw := false }
  | some languageClient =>
    match self.editor.file with
    | none => { world := w, self := self, effects := [], threw := true }
    | some file =>
      match lookupOrCreateModel lowerCase uriToString w self languageClient file.path
        file.content with
      | (w1, self1, made, none) =>
        { world := w1, self := self1, effects := made, threw := true }
      | (w1, self1, made, some model) =>
        let opened := sendDidOpen lowerCase w1 self1 languageClient file.path file.content
        { world := opened.1, self := self1,
          effects := made ++ [Effect.setModel model] ++
            restoreSelection self1.editor.selection ++ opened.2,
          threw := false }

/-- The method `componentWillUnmount` (lines 138-154). -/
def componentWillUnmount (w : World) (self : MonacoEditor) : Outcome :=
  match w.clients.get self.language with
  | none => { world := w, self := self, effects := [], threw := false }
  | some languageClient =>
    match self.editor.file with
    | none => { world := w, self := self, effects := [], threw := true }
    | some file =>
      if truthy (languageClient.openeduri.get file.path) then
        { world := w.deleteOpened self.language languageClient file.path,
          self := { self with didmount := false },
          effects := [Effect.closeTextDocument self.language (fileUri languageClient file.path)],
          threw := false }
      else { world := w, self := self, effects := [], threw := false }

/-! ## Sequences of runs -/

/-- What can happen between two observations of the shared state: a run of the
binding autorun of some editor instance, a `componentWillUnmount` of some editor
instance (each given with the instance's fields at that moment), or the
connection of a registered client changing its state from outside. -/
inductive Event where
  | autorun (self : MonacoEditor)
  | unmount (self : MonacoEditor)
  | clientState (language : String) (state : Option Nat)
deriving DecidableEq, Repr

/-- The shared state after one event, and the calls made during it. -/
def step (lowerCase uriToString : String → String) (w : World) :
    Event → World × List Effect
  | Event.autorun self =>
    ((bindingAutorun lowerCase uriToString w self).world,
      (bindingAutorun lowerCase uriToString w self).effects)
  | Event.unmount self =>
    ((componentWillUnmount w self).world, (componentWillUnmount w self).effects)
  | Event.clientState language state =>
    match w.clients.get language with
    | none => (w, [])
    | some languageClient =>
      ({ w with clients := w.clients.set language { languageClient with client := state } }, [])

/-- Runs the events in order from `w`, appending to `log` every call made,
paired with the event during which it was made. -/
def run (lowerCase uriToString : String → String) (w : World)
    (log : List (Event × Effect)) :
    List Event → World × List (Event × Effect)
  | [] => (w, log)
  | ev :: rest =>
    run lowerCase uriToString (step lowerCase uriToString w ev).1
      (log ++ (step lowerCase uriToString w ev).2.map (fun e => (ev, e))) rest

/-- The call is an `openTextDocument` on the client registered under `client`
for the document `uri`. -/
def didOpenFor (client uri : String) : Effect → Bool
  | Effect.openTextDocument c u _ _ _ => decide (c = client ∧ u = uri)
  | _ => false

/-- The call is a `closeTextDocument` on the client registered under `client`
for the document `uri`. -/
def didCloseFor (client uri : String) : Effect → Bool
  | Effect.closeTextDocument c u => decide (c = client ∧ u = uri)
  | _ => false

/-- The call is an `openTextDocument` or a `closeTextDocument`. -/
def isProtocolCall : Effect → Bool
  | Effect.openTextDocument _ _ _ _ _ => true
  | Effect.closeTextDocument _ _ => true
  | _ => false

/-- The call is a `monaco.editor.createModel`. -/
def isCreateModel : Effect → Bool
  | Effect.createModel _ _ _ => true
  | _ => false

/-- The call is a `monacoEditor.setModel`. -/
def isSetModel : Effect → Bool
  | Effect.setModel _ => true
  | _ => false

/-- In the call log, a did-open for the document has been sent and no did-close
for it has been sent since. -/
def OpenPending (client uri : String) (log : List Effect) : Prop :=
  ∃ before e after, log = before ++ e :: after ∧ didOpenFor client uri e = true ∧
    ∀ x ∈ after, didCloseFor client uri x = false

/-- The same, computed by reading the log from the start: a did-open for the
document raises the flag, a did-close for it lowers it. -/
def pendingAfter (client uri : String) (pending : Bool) (e : Effect) : Bool :=
  if didOpenFor client uri e then true
  else if didCloseFor client uri e then false
  else pending

/-- The flag of `pendingAfter` at the end of the log. -/
def pendingOpen (client uri : String) (log : List Effect) : Bool :=
  log.foldl (pendingAfter client uri) false

/-- No client has a document registered in its `openeduri`. -/
def NothingOpen (w : World) : Prop :=
  ∀ language languageClient, w.clients.get language = some languageClient →
    ∀ path, languageClient.openeduri.get path = none

/-- The open-set invariant: for every registered client, a path is a key of
its `openeduri` exactly when the call log has a pending did-open for the
document of that path. -/
def OpenSetInvariant (w : World) (log : List Effect) : Prop :=
  ∀ language languageClient path, w.clients.get language = some languageClient →
    (languageClient.openeduri.has path = true ↔
      pendingOpen language (fileUri languageClient path) log = true)

/-- Every did-close of the log was sent during a `componentWillUnmount` of an
editor whose language and file path are those of the document, at a moment when
a did-open for the document was pending. -/
def ClosesJustified (w : World) (log : List (Event × Effect)) : Prop :=
  ∀ before after ev language uri,
    log = before ++ (ev, Effect.closeTextDocument language uri) :: after →
    ∃ self client file, ev = Event.unmount self ∧ self.language = language ∧
      self.editor.file = some file ∧ w.clients.get language = some client ∧
      uri = fileUri client file.path ∧ OpenPending language uri (before.map Prod.snd)

/-! ## Concrete editors and states used in the examples

In the examples `lowerCase` is the identity: the only language is `javascript`,
which lodash's `lowerCase` leaves as it is. -/

namespace Scenario

/-- Percent-encoding of the characters of a URI string, for the characters that
occur in the examples: a space is written `%20`, the others stay. -/
def percentEncode : List Char → List Char
  | [] => []
  | c :: rest =>
    if c = ' ' then '%' :: '2' :: '0' :: percentEncode rest else c :: percentEncode rest

/-- The string form of `monaco.Uri.parse(s)` on the strings of the examples. -/
def uriToString (s : String) : String := String.mk (percentEncode s.data)

/-- A registered client for `javascript`: root `/ws`, connection Running,
nothing open. -/
def jsClient : LanguageClient :=
  { _ROOT_URI_ := "/ws", client := some 3, openeduri := StrMap.empty }

/-- The scratch model monaco keeps for the editor `id`. -/
def scratch (n : Nat) (id : String) : TextModel :=
  { handle := n, value := "", languageId := "", uri := "inmemory://model/" ++ id }

/-- A state with the `javascript` client, the scratch models of the editors
`e1` and `e2`, no model for any file, and no `dispose` that throws. -/
def world0 : World :=
  { clients := StrMap.empty.set "javascript" jsClient,
    models := (StrMap.empty.set "inmemory://model/e1" (scratch 0 "e1")).set
      "inmemory://model/e2" (scratch 1 "e2"),
    nextHandle := 2,
    disposeThrows := fun _ => false }

/-- The state `world0` with every `dispose` throwing. -/
def worldDisposeThrows : World := { world0 with disposeThrows := fun _ => true }

/-- The state `world0` with a model already registered for `/a.js`. -/
def worldWithModel : World :=
  { world0 with
    models := world0.models.set "file:///ws/a.js"
      { handle := 2, value := "x", languageId := "javascript", uri := "file:///ws/a.js" },
    nextHandle := 3 }

/-- The state `world0` with `/a.js` registered in `openeduri` under the empty
content, as the did-open of an empty file leaves it. -/
def worldEmptyOpen : World :=
  { worldWithModel with
    clients := StrMap.empty.set "javascript"
      { jsClient with openeduri := StrMap.empty.set "/a.js" "" } }

/-- An active, mounted `javascript` editor `id` on the file at `path` with the
given content, in a tab. -/
def editorAt (id path content : String) : MonacoEditor :=
  { language := "javascript",
    editor :=
      { id := id,
        file := some { id := "f1", path := path, content := content, isSynced := true },
        selection := none, model := none },
    currentValue := none, didmount := true, uri := none, active := true, tab := some "tab1" }

/-- An active, mounted `javascript` editor `id` on the file `/a.js` with the
given content, in a tab. -/
def editorOn (id content : String) : MonacoEditor := editorAt id "/a.js" content

/-- The editor `editorOn id content` rendered without a `tab` prop. -/
def untabbed (id content : String) : MonacoEditor := { editorOn id content with tab := none }

/-- The first run of the binding autorun of the editor `e1` on `/a.js` with the
given content, from `world0`. -/
def firstRun (content : String) : Outcome :=
  bindingAutorun id Scenario.uriToString world0 (editorOn "e1" content)

/-- Whether `path` is a key of the `openeduri` of the `javascript` client of `w`. -/
def jsHas (w : World) (path : String) : Option Bool :=
  (w.clients.get "javascript").map (fun languageClient => languageClient.openeduri.has path)

end Scenario

/-! ## Theorems -/

/-! ### Auxiliary facts -/

theorem fileUri_ne_scratchUri (languageClient : LanguageClient) (path id : String) :
    fileUri languageClient path ≠ scratchUri id := by
  intro h
  have hd := congrArg String.data h
  simp [fileUri, scratchUri] at hd

theorem fileUri_injective (languageClient : LanguageClient) (p q : String)
    (h : fileUri languageClient p = fileUri languageClient q) : p = q := by
  have hd := congrArg String.data h
  simp [fileUri] at hd
  exact String.ext hd

theorem sendDidOpen_eq (lowerCase : String → String) (w : World) (self : MonacoEditor)
    (languageClient : LanguageClient) (path content : String) :
    sendDidOpen lowerCase w self languageClient path content =
      if languageClient.client = some 3 ∧ self.active = true ∧ self.didmount = true ∧
          truthy (languageClient.openeduri.get path) = false then
        (w.setOpened self.language languageClient path content,
          [Effect.openTextDocument self.language (fileUri languageClient path)
            (lowerCase self.language) content 1])
      else (w, []) := by
  unfold sendDidOpen
  by_cases h1 : languageClient.client = some 3 ∧ self.active = true ∧ self.didmount = true
  · by_cases h2 : truthy (languageClient.openeduri.get path) = false
    · have h3 : languageClient.client = some 3 ∧ self.active = true ∧ self.didmount = true ∧
          truthy (languageClient.openeduri.get path) = false := ⟨h1.1, h1.2.1, h1.2.2, h2⟩
      simp [h1, h2, h3]
    · have h3 : ¬ (languageClient.client = some 3 ∧ self.active = true ∧ self.didmount = true ∧
          truthy (languageClient.openeduri.get path) = false) := fun h => h2 h.2.2.2
      rw [if_pos h1, if_neg h3]
      simp at h2
      simp [h2]
  · have h3 : ¬ (languageClient.client = some 3 ∧ self.active = true ∧ self.didmount = true ∧
        truthy (languageClient.openeduri.get path) = false) :=
      fun h => h1 ⟨h.1, h.2.1, h.2.2.1⟩
    rw [if_neg h1, if_neg h3]

theorem sendDidOpen_models (lowerCase : String → String) (w : World) (self : MonacoEditor)
    (languageClient : LanguageClient) (path content : String) :
    (sendDidOpen lowerCase w self languageClient path content).1.models = w.models := by
  rw [sendDidOpen_eq]; split <;> rfl

theorem filter_isSetModel_sendDidOpen (lowerCase : String → String) (w : World)
    (self : MonacoEditor) (languageClient : LanguageClient) (path content : String) :
    (sendDidOpen lowerCase w self languageClient path content).2.filter isSetModel = [] := by
  rw [sendDidOpen_eq]; split <;> simp [isSetModel]

theorem filter_isCreateModel_sendDidOpen (lowerCase : String → String) (w : World)
    (self : MonacoEditor) (languageClient : LanguageClient) (path content : String) :
    (sendDidOpen lowerCase w self languageClient path content).2.filter isCreateModel = [] := by
  rw [sendDidOpen_eq]; split <;> simp [isCreateModel]

theorem filter_isSetModel_restoreSelection (selection : Option (Nat × Nat × Nat × Nat)) :
    (restoreSelection selection).filter isSetModel = [] := by
  cases selection <;> simp [restoreSelection, isSetModel]

theorem filter_isCreateModel_restoreSelection (selection : Option (Nat × Nat × Nat × Nat)) :
    (restoreSelection selection).filter isCreateModel = [] := by
  cases selection <;> simp [restoreSelection, isCreateModel]

theorem filter_isProtocolCall_restoreSelection (selection : Option (Nat × Nat × Nat × Nat)) :
    (restoreSelection selection).filter isProtocolCall = [] := by
  cases selection <;> simp [restoreSelection, isProtocolCall]

/-- The run of the binding autorun when the model lookup or creation hands a
model on. -/
theorem bindingAutorun_of_model (lowerCase uriToString : String → String) (w w1 : World)
    (self self1 : MonacoEditor) (languageClient : LanguageClient) (file : FileRecord)
    (made : List Effect) (model : TextModel)
    (hc : w.clients.get self.language = some languageClient)
    (hf : self.editor.file = some file)
    (hm : lookupOrCreateModel lowerCase uriToString w self languageClient file.path file.content =
      (w1, self1, made, some model)) :
    bindingAutorun lowerCase uriToString w self =
      { world := (sendDidOpen lowerCase w1 self1 languageClient file.path file.content).1,
        self := self1,
        effects := made ++ [Effect.setModel model] ++ restoreSelection self1.editor.selection ++
          (sendDidOpen lowerCase w1 self1 languageClient file.path file.content).2,
        threw := false } := by
  simp [bindingAutorun, hc, hf, hm]

/-- The run of the binding autorun when `tmpModel.dispose()` ends it. -/
theorem bindingAutorun_of_throw (lowerCase uriToString : String → String) (w w1 : World)
    (self self1 : MonacoEditor) (languageClient : LanguageClient) (file : FileRecord)
    (made : List Effect)
    (hc : w.clients.get self.language = some languageClient)
    (hf : self.editor.file = some file)
    (hm : lookupOrCreateModel lowerCase uriToString w self languageClient file.path file.content =
      (w1, self1, made, none)) :
    bindingAutorun lowerCase uriToString w self =
      { world := w1, self := self1, effects := made, threw := true } := by
  simp [bindingAutorun, hc, hf, hm]

theorem lookupOrCreateModel_frame (lowerCase uriToString : String → String) (w : World)
    (self : MonacoEditor) (languageClient : LanguageClient) (path content : String) :
    (lookupOrCreateModel lowerCase uriToString w self languageClient path content).1.clients = w.clients ∧
    (lookupOrCreateModel lowerCase uriToString w self languageClient path content).2.1.language
      = self.language ∧
    (lookupOrCreateModel lowerCase uriToString w self languageClient path content).2.1.active
      = self.active ∧
    (lookupOrCreateModel lowerCase uriToString w self languageClient path content).2.1.didmount
      = self.didmount ∧
    (lookupOrCreateModel lowerCase uriToString w self languageClient path content).2.2.1.filter
      isProtocolCall = [] := by
  unfold lookupOrCreateModel
  split
  · simp
  · dsimp only
    split
    · simp [isProtocolCall]
    · split
      · simp [isProtocolCall]
      · split <;> simp [isProtocolCall]

/-- Every `createModel` call of the lookup-or-create step is for the document
URI, and is made only when no model is registered under it. -/
theorem lookupOrCreateModel_created (lowerCase uriToString : String → String) (w : World)
    (self : MonacoEditor) (languageClient : LanguageClient) (path content : String)
    (v l u : String)
    (h : Effect.createModel v l u ∈
      (lookupOrCreateModel lowerCase uriToString w self languageClient path content).2.2.1) :
    w.models.get u = none := by
  unfold lookupOrCreateModel at h
  split at h
  · simp at h
  · rename_i hnone
    dsimp only at h
    split at h
    · simp at h
      rw [h.2.2]; exact hnone
    · split at h
      · simp at h
        rw [h.2.2]; exact hnone
      · split at h <;>
        · simp at h
          rw [h.2.2]; exact hnone

theorem sendDidOpen_rootUri (lowerCase : String → String) (w : World) (self : MonacoEditor)
    (languageClient other : LanguageClient) (path content : String)
    (hc : w.clients.get self.language = some languageClient)
    (ho : (sendDidOpen lowerCase w self languageClient path content).1.clients.get
      self.language = some other) :
    other._ROOT_URI_ = languageClient._ROOT_URI_ := by
  rw [sendDidOpen_eq] at ho
  split at ho
  · simp [World.setOpened, StrMap.set] at ho
    rw [← ho]
  · rw [hc] at ho
    simp at ho
    rw [ho]

theorem fileUri_congr (a b : LanguageClient) (path : String)
    (h : a._ROOT_URI_ = b._ROOT_URI_) : fileUri a path = fileUri b path := by
  simp [fileUri, h]

/-- The four ways a run of the binding autorun can go. -/
theorem bindingAutorun_cases (lowerCase uriToString : String → String) (w : World) (self : MonacoEditor) :
    (w.clients.get self.language = none ∧
      bindingAutorun lowerCase uriToString w self =
        { world := w, self := self, effects := [], threw := false }) ∨
    (∃ languageClient, w.clients.get self.language = some languageClient ∧
      self.editor.file = none ∧
      bindingAutorun lowerCase uriToString w self =
        { world := w, self := self, effects := [], threw := true }) ∨
    (∃ languageClient file w1 self1 made,
      w.clients.get self.language = some languageClient ∧ self.editor.file = some file ∧
      lookupOrCreateModel lowerCase uriToString w self languageClient file.path file.content =
        (w1, self1, made, none) ∧
      bindingAutorun lowerCase uriToString w self =
        { world := w1, self := self1, effects := made, threw := true }) ∨
    (∃ languageClient file w1 self1 made model,
      w.clients.get self.language = some languageClient ∧ self.editor.file = some file ∧
      lookupOrCreateModel lowerCase uriToString w self languageClient file.path file.content =
        (w1, self1, made, some model) ∧
      bindingAutorun lowerCase uriToString w self =
        { world := (sendDidOpen lowerCase w1 self1 languageClient file.path file.content).1,
          self := self1,
          effects := made ++ [Effect.setModel model] ++
            restoreSelection self1.editor.selection ++
            (sendDidOpen lowerCase w1 self1 languageClient file.path file.content).2,
          threw := false }) := by
  cases hc : w.clients.get self.language with
  | none => left; exact ⟨rfl, by simp [bindingAutorun, hc]⟩
  | some languageClient =>
    cases hf : self.editor.file with
    | none => right; left; exact ⟨languageClient, rfl, rfl, by simp [bindingAutorun, hc, hf]⟩
    | some file =>
      rcases hm : lookupOrCreateModel lowerCase uriToString w self languageClient file.path file.content
        with ⟨w1, self1, made, _ | model⟩
      · right; right; left
        exact ⟨languageClient, file, w1, self1, made, rfl, rfl, hm,
          bindingAutorun_of_throw lowerCase uriToString w w1 self self1 languageClient file made hc hf hm⟩
      · right; right; right
        exact ⟨languageClient, file, w1, self1, made, model, rfl, rfl, hm,
          bindingAutorun_of_model lowerCase uriToString w w1 self self1 languageClient file made model
            hc hf hm⟩

/-- Every `createModel` call of a run of the binding autorun is for a URI under
which no model was registered when the run began. -/
theorem bindingAutorun_created (lowerCase uriToString : String → String) (w : World)
    (self : MonacoEditor) (v l u : String)
    (h : Effect.createModel v l u ∈ (bindingAutorun lowerCase uriToString w self).effects) :
    w.models.get u = none := by
  rcases bindingAutorun_cases lowerCase uriToString w self with ⟨_, hr⟩ | ⟨_, _, _, hr⟩ |
    ⟨languageClient, file, w1, self1, made, _, _, hm, hr⟩ |
    ⟨languageClient, file, w1, self1, made, model, _, _, hm, hr⟩
  · rw [hr] at h; simp at h
  · rw [hr] at h; simp at h
  · rw [hr] at h
    apply lookupOrCreateModel_created lowerCase uriToString w self languageClient file.path
      file.content v l u
    rw [hm]; exact h
  · rw [hr] at h
    simp only [List.mem_append, List.mem_singleton] at h
    rcases h with ((h | h) | h) | h
    · apply lookupOrCreateModel_created lowerCase uriToString w self languageClient file.path
        file.content v l u
      rw [hm]; exact h
    · cases h
    · cases hs : self1.editor.selection <;> simp [hs, restoreSelection] at h
    · rw [sendDidOpen_eq] at h
      split at h <;> simp at h

/-- The lookup-or-create step when no model is registered for the document,
neither under the URI string nor under the parsed URI, and the scratch model is
registered and disposed of without an exception. -/
theorem lookupOrCreateModel_fresh (lowerCase uriToString : String → String) (w : World)
    (self : MonacoEditor) (languageClient : LanguageClient) (path content : String)
    (tmpModel : TextModel)
    (hnew : w.models.get (fileUri languageClient path) = none)
    (hfree : w.models.get (uriToString (fileUri languageClient path)) = none)
    (htmp : w.models.get (scratchUri self.editor.id) = some tmpModel)
    (hd : w.disposeThrows (scratchUri self.editor.id) = false) :
    ∃ w1 self1,
      lookupOrCreateModel lowerCase uriToString w self languageClient path content =
        (w1, self1,
          [Effect.createModel content (lowerCase self.language) (fileUri languageClient path),
            Effect.dispose (scratchUri self.editor.id)],
          some { handle := w.nextHandle, value := content,
                 languageId := lowerCase self.language,
                 uri := uriToString (fileUri languageClient path) }) ∧
      w1.clients = w.clients ∧ self1.language = self.language ∧
      w1.models.get (uriToString (fileUri languageClient path)) =
        some { handle := w.nextHandle, value := content,
               languageId := lowerCase self.language,
               uri := uriToString (fileUri languageClient path) } := by
  have hne : scratchUri self.editor.id ≠ uriToString (fileUri languageClient path) := by
    intro h
    rw [h, hfree] at htmp
    cases htmp
  refine ⟨(lookupOrCreateModel lowerCase uriToString w self languageClient path content).1,
    (lookupOrCreateModel lowerCase uriToString w self languageClient path content).2.1,
    ?_, ?_, ?_, ?_⟩
  · simp only [lookupOrCreateModel, hnew, hfree, StrMap.set, hne, if_false, htmp, hd]
    rfl
  · exact (lookupOrCreateModel_frame lowerCase uriToString w self languageClient path content).1
  · exact (lookupOrCreateModel_frame lowerCase uriToString w self languageClient path
      content).2.1
  · simp only [lookupOrCreateModel, hnew, hfree, StrMap.set, hne, if_false, htmp, hd]
    simp [StrMap.delete, Ne.symm hne]

/-- The lookup-or-create step when no model is registered for the document and
the `dispose` of the registered scratch model throws. -/
theorem lookupOrCreateModel_dispose_throws (lowerCase uriToString : String → String)
    (w : World) (self : MonacoEditor) (languageClient : LanguageClient)
    (path content : String) (tmpModel : TextModel)
    (hnew : w.models.get (fileUri languageClient path) = none)
    (hfree : w.models.get (uriToString (fileUri languageClient path)) = none)
    (htmp : w.models.get (scratchUri self.editor.id) = some tmpModel)
    (hd : w.disposeThrows (scratchUri self.editor.id) = true) :
    ∃ w1 self1,
      lookupOrCreateModel lowerCase uriToString w self languageClient path content =
        (w1, self1,
          [Effect.createModel content (lowerCase self.language) (fileUri languageClient path),
            Effect.dispose (scratchUri self.editor.id)],
          none) := by
  have hne : scratchUri self.editor.id ≠ uriToString (fileUri languageClient path) := by
    intro h
    rw [h, hfree] at htmp
    cases htmp
  refine ⟨(lookupOrCreateModel lowerCase uriToString w self languageClient path content).1,
    (lookupOrCreateModel lowerCase uriToString w self languageClient path content).2.1, ?_⟩
  simp only [lookupOrCreateModel, hnew, hfree, StrMap.set, hne, if_false, htmp, hd]
  rfl

/-- The lookup-or-create step when a model is registered for the document. -/
theorem lookupOrCreateModel_found (lowerCase uriToString : String → String) (w : World)
    (self : MonacoEditor) (languageClient : LanguageClient) (path content : String)
    (model : TextModel) (h : w.models.get (fileUri languageClient path) = some model) :
    lookupOrCreateModel lowerCase uriToString w self languageClient path content =
      (w, self, [], some model) := by
  simp [lookupOrCreateModel, h]


/-- The run of the binding autorun when no client is registered for the
language. -/
theorem bindingAutorun_of_no_client (lowerCase uriToString : String → String) (w : World)
    (self : MonacoEditor) (h : w.clients.get self.language = none) :
    bindingAutorun lowerCase uriToString w self =
      { world := w, self := self, effects := [], threw := false } := by
  simp [bindingAutorun, h]

/-! ### Auxiliary facts on the call log -/

theorem snoc_eq_split {α : Type} (log before after : List α) (e x : α)
    (h : log ++ [e] = before ++ x :: after) :
    (after = [] ∧ log = before ∧ e = x) ∨
      ∃ init, after = init ++ [e] ∧ log = before ++ x :: init := by
  rcases List.eq_nil_or_concat after with rfl | ⟨init, last, rfl⟩
  · left
    have h2 := List.append_inj' h rfl
    exact ⟨rfl, h2.1, by simpa using h2.2⟩
  · right
    have h1 : log ++ [e] = (before ++ x :: init) ++ [last] := by simpa using h
    have h2 := List.append_inj' h1 rfl
    have h3 : e = last := by simpa using h2.2
    exact ⟨init, by rw [h3, List.concat_eq_append], h2.1⟩

theorem pendingOpen_append (client uri : String) (log more : List Effect) :
    pendingOpen client uri (log ++ more) =
      more.foldl (pendingAfter client uri) (pendingOpen client uri log) := by
  simp [pendingOpen, List.foldl_append]

theorem pendingAfter_of_not_protocol (client uri : String) (pending : Bool) (e : Effect)
    (h : isProtocolCall e = false) : pendingAfter client uri pending e = pending := by
  cases e <;> simp [isProtocolCall] at h <;> simp [pendingAfter, didOpenFor, didCloseFor]

theorem foldl_pendingAfter_filter (client uri : String) (more : List Effect) (pending : Bool) :
    more.foldl (pendingAfter client uri) pending =
      (more.filter isProtocolCall).foldl (pendingAfter client uri) pending := by
  induction more generalizing pending with
  | nil => rfl
  | cons e rest ih =>
    cases h : isProtocolCall e
    · simp [List.filter_cons, h, pendingAfter_of_not_protocol client uri pending e h, ih]
    · simp [List.filter_cons, h, ih]

/-- The flag computed by `pendingOpen` says what `OpenPending` says. -/
theorem pendingOpen_iff (client uri : String) (log : List Effect) :
    pendingOpen client uri log = true ↔ OpenPending client uri log := by
  induction log using List.reverseRecOn with
  | nil =>
    simp [pendingOpen, OpenPending]
  | append_singleton log e ih =>
    rw [pendingOpen_append]
    simp only [List.foldl_cons, List.foldl_nil]
    cases ho : didOpenFor client uri e with
    | true =>
      have hp : pendingAfter client uri (pendingOpen client uri log) e = true := by
        simp [pendingAfter, ho]
      rw [hp]
      simp only [true_iff]
      exact ⟨log, e, [], rfl, ho, by simp⟩
    | false =>
      cases hcl : didCloseFor client uri e with
      | true =>
        have hp : pendingAfter client uri (pendingOpen client uri log) e = false := by
          simp [pendingAfter, ho, hcl]
        rw [hp]
        constructor
        · intro h; cases h
        · rintro ⟨before, x, after, hsplit, hx, hafter⟩
          exfalso
          rcases snoc_eq_split log before after e x hsplit with ⟨_, _, hex⟩ | ⟨init, hinit, _⟩
          · rw [hex, hx] at ho; cases ho
          · have hl := hafter e (by rw [hinit]; simp)
            rw [hcl] at hl; cases hl
      | false =>
        have hp : pendingAfter client uri (pendingOpen client uri log) e =
            pendingOpen client uri log := by
          simp [pendingAfter, ho, hcl]
        rw [hp, ih]
        constructor
        · rintro ⟨before, x, after, hsplit, hx, hafter⟩
          refine ⟨before, x, after ++ [e], by simp [hsplit], hx, ?_⟩
          intro y hy
          rcases List.mem_append.mp hy with hy | hy
          · exact hafter y hy
          · simp at hy
            rw [hy]
            exact hcl
        · rintro ⟨before, x, after, hsplit, hx, hafter⟩
          rcases snoc_eq_split log before after e x hsplit with ⟨_, _, hex⟩ | ⟨init, hinit, hlog⟩
          · rw [hex, hx] at ho; cases ho
          · exact ⟨before, x, init, hlog, hx,
              fun y hy => hafter y (by rw [hinit]; simp [hy])⟩
/-- What a run of the binding autorun does to the clients and which protocol
calls it makes: none, or one did-open together with the `openeduri.set`. -/
theorem bindingAutorun_protocol (lowerCase uriToString : String → String) (w : World)
    (self : MonacoEditor) :
    ((bindingAutorun lowerCase uriToString w self).world.clients = w.clients ∧
      (bindingAutorun lowerCase uriToString w self).effects.filter isProtocolCall = []) ∨
    ∃ languageClient file,
      w.clients.get self.language = some languageClient ∧ self.editor.file = some file ∧
      (languageClient.client = some 3 ∧ self.active = true ∧ self.didmount = true ∧
        truthy (languageClient.openeduri.get file.path) = false) ∧
      (bindingAutorun lowerCase uriToString w self).world.clients =
        (w.setOpened self.language languageClient file.path file.content).clients ∧
      (bindingAutorun lowerCase uriToString w self).effects.filter isProtocolCall =
        [Effect.openTextDocument self.language (fileUri languageClient file.path)
          (lowerCase self.language) file.content 1] := by
  rcases bindingAutorun_cases lowerCase uriToString w self with ⟨_, hr⟩ | ⟨_, _, _, hr⟩ |
    ⟨languageClient, file, w1, self1, made, _, _, hm, hr⟩ |
    ⟨languageClient, file, w1, self1, made, model, hc, hf, hm, hr⟩
  · left; rw [hr]; exact ⟨rfl, rfl⟩
  · left; rw [hr]; exact ⟨rfl, rfl⟩
  · left
    have hfr := lookupOrCreateModel_frame lowerCase uriToString w self languageClient file.path file.content
    rw [hm] at hfr
    rw [hr]; exact ⟨hfr.1, hfr.2.2.2.2⟩
  · have hfr := lookupOrCreateModel_frame lowerCase uriToString w self languageClient file.path file.content
    rw [hm] at hfr
    obtain ⟨hcl, hlang, hact, hmount, hmade⟩ := hfr
    simp only at hcl hlang hact hmount hmade
    rw [hr]
    simp only [List.filter_append, hmade, filter_isProtocolCall_restoreSelection]
    rw [sendDidOpen_eq]
    by_cases hg : languageClient.client = some 3 ∧ self1.active = true ∧
        self1.didmount = true ∧ truthy (languageClient.openeduri.get file.path) = false
    · right
      rw [if_pos hg]
      refine ⟨languageClient, file, hc, hf, ?_, ?_, ?_⟩
      · rw [← hact, ← hmount]; exact hg
      · simp [World.setOpened, hcl, hlang]
      · simp [isProtocolCall, hlang]
    · left
      rw [if_neg hg]
      exact ⟨hcl, by simp [isProtocolCall]⟩

/-- What `componentWillUnmount` does to the clients and which protocol calls it
makes: none, or one did-close together with the `openeduri.delete`. -/
theorem componentWillUnmount_protocol (w : World) (self : MonacoEditor) :
    ((componentWillUnmount w self).world = w ∧ (componentWillUnmount w self).effects = []) ∨
    ∃ languageClient file,
      w.clients.get self.language = some languageClient ∧ self.editor.file = some file ∧
      truthy (languageClient.openeduri.get file.path) = true ∧
      (componentWillUnmount w self).world =
        w.deleteOpened self.language languageClient file.path ∧
      (componentWillUnmount w self).effects =
        [Effect.closeTextDocument self.language (fileUri languageClient file.path)] := by
  cases hc : w.clients.get self.language with
  | none => left; simp [componentWillUnmount, hc]
  | some languageClient =>
    cases hf : self.editor.file with
    | none => left; simp [componentWillUnmount, hc, hf]
    | some file =>
      cases ht : truthy (languageClient.openeduri.get file.path) with
      | false => left; simp [componentWillUnmount, hc, hf, ht]
      | true =>
        right
        exact ⟨languageClient, file, rfl, rfl, ht, by simp [componentWillUnmount, hc, hf, ht],
          by simp [componentWillUnmount, hc, hf, ht]⟩

theorem truthy_has (value : Option String) (h : truthy value = true) :
    value.isSome = true := by
  cases value with
  | none => simp [truthy] at h
  | some s => rfl

theorem StrMap.get_set {α : Type} (m : StrMap α) (k k2 : String) (v : α) :
    (m.set k v).get k2 = if k2 = k then some v else m.get k2 := rfl

theorem StrMap.get_delete {α : Type} (m : StrMap α) (k k2 : String) :
    (m.delete k).get k2 = if k2 = k then none else m.get k2 := rfl

theorem fileUri_eq_iff (languageClient : LanguageClient) (p q : String) :
    fileUri languageClient p = fileUri languageClient q ↔ p = q :=
  ⟨fileUri_injective languageClient p q, fun h => by rw [h]⟩

/-- The invariant after a did-open with its `openeduri.set`. -/
theorem invariant_after_open (w : World) (log : List Effect) (language0 : String)
    (client0 : LanguageClient) (path0 content languageId : String)
    (h : OpenSetInvariant w log) (hc : w.clients.get language0 = some client0)
    (language : String) (client : LanguageClient) (path : String)
    (hget : (w.setOpened language0 client0 path0 content).clients.get language = some client) :
    client.openeduri.has path = true ↔
      pendingAfter language (fileUri client path) (pendingOpen language (fileUri client path) log)
        (Effect.openTextDocument language0 (fileUri client0 path0) languageId content 1)
        = true := by
  simp only [World.setOpened] at hget
  rw [StrMap.get_set] at hget
  by_cases hl : language = language0
  · rw [if_pos hl] at hget
    cases hget
    subst hl
    show (client0.openeduri.set path0 content).has path = true ↔
      pendingAfter language (fileUri client0 path)
        (pendingOpen language (fileUri client0 path) log)
        (Effect.openTextDocument language (fileUri client0 path0) languageId content 1) = true
    have hold := h language client0 path hc
    by_cases hp : path = path0
    · subst hp
      simp [StrMap.has, StrMap.get_set, pendingAfter, didOpenFor]
    · have hne : ¬ fileUri client0 path0 = fileUri client0 path :=
        fun hu => hp ((fileUri_eq_iff client0 _ _).mp hu).symm
      simp only [StrMap.has, StrMap.get_set, if_neg hp, pendingAfter, didOpenFor, didCloseFor,
        hne, and_false, decide_False, Bool.false_eq_true, if_false]
      exact hold
  · rw [if_neg hl] at hget
    have hl2 : ¬ language0 = language := fun hx => hl hx.symm
    simp only [pendingAfter, didOpenFor, didCloseFor, hl2, false_and, decide_False,
      Bool.false_eq_true, if_false]
    exact h language client path hget

/-- The invariant after a did-close with its `openeduri.delete`. -/
theorem invariant_after_close (w : World) (log : List Effect) (language0 : String)
    (client0 : LanguageClient) (path0 : String)
    (h : OpenSetInvariant w log) (hc : w.clients.get language0 = some client0)
    (language : String) (client : LanguageClient) (path : String)
    (hget : (w.deleteOpened language0 client0 path0).clients.get language = some client) :
    client.openeduri.has path = true ↔
      pendingAfter language (fileUri client path) (pendingOpen language (fileUri client path) log)
        (Effect.closeTextDocument language0 (fileUri client0 path0)) = true := by
  simp only [World.deleteOpened] at hget
  rw [StrMap.get_set] at hget
  by_cases hl : language = language0
  · rw [if_pos hl] at hget
    cases hget
    subst hl
    show (client0.openeduri.delete path0).has path = true ↔
      pendingAfter language (fileUri client0 path)
        (pendingOpen language (fileUri client0 path) log)
        (Effect.closeTextDocument language (fileUri client0 path0)) = true
    have hold := h language client0 path hc
    by_cases hp : path = path0
    · subst hp
      simp [StrMap.has, StrMap.get_delete, pendingAfter, didOpenFor, didCloseFor]
    · have hne : ¬ fileUri client0 path0 = fileUri client0 path :=
        fun hu => hp ((fileUri_eq_iff client0 _ _).mp hu).symm
      simp only [StrMap.has, StrMap.get_delete, if_neg hp, pendingAfter, didOpenFor,
        didCloseFor, hne, and_false, decide_False, Bool.false_eq_true, if_false]
      exact hold
  · rw [if_neg hl] at hget
    have hl2 : ¬ language0 = language := fun hx => hl hx.symm
    simp only [pendingAfter, didOpenFor, didCloseFor, hl2, false_and, decide_False,
      Bool.false_eq_true, if_false]
    exact h language client path hget

/-- One event keeps the open-set invariant. -/
theorem step_preserves_invariant (lowerCase uriToString : String → String) (w : World)
    (log : List Effect) (ev : Event) (h : OpenSetInvariant w log) :
    OpenSetInvariant (step lowerCase uriToString w ev).1 (log ++ (step lowerCase uriToString w ev).2) := by
  intro language client path hget
  rw [pendingOpen_append, foldl_pendingAfter_filter]
  cases ev with
  | autorun self =>
    simp only [step] at hget ⊢
    rcases bindingAutorun_protocol lowerCase uriToString w self with ⟨hcl, heff⟩ |
      ⟨lc0, file, hc, hf, _, hcl, heff⟩
    · rw [heff]; rw [hcl] at hget
      exact h language client path hget
    · rw [heff]; rw [hcl] at hget
      exact invariant_after_open w log self.language lc0 file.path file.content _ h hc
        language client path hget
  | unmount self =>
    simp only [step] at hget ⊢
    rcases componentWillUnmount_protocol w self with ⟨hw, heff⟩ |
      ⟨lc0, file, hc, hf, _, hw, heff⟩
    · rw [heff]; rw [hw] at hget
      exact h language client path hget
    · rw [heff]; rw [hw] at hget
      exact invariant_after_close w log self.language lc0 file.path h hc
        language client path hget
  | clientState lang state =>
    cases hc : w.clients.get lang with
    | none =>
      simp only [step, hc] at hget ⊢
      exact h language client path hget
    | some lc0 =>
      simp only [step, hc] at hget ⊢
      rw [StrMap.get_set] at hget
      by_cases hl : language = lang
      · rw [if_pos hl] at hget
        cases hget
        subst hl
        exact h language lc0 path hc
      · rw [if_neg hl] at hget
        exact h language client path hget
theorem map_snd_tagged (ev : Event) (effects : List Effect) :
    (effects.map (fun e => (ev, e))).map Prod.snd = effects := by
  induction effects with
  | nil => rfl
  | cons e rest ih => simp

/-- A sequence of events keeps the open-set invariant. -/
theorem run_preserves_invariant (lowerCase uriToString : String → String) (events : List Event) :
    ∀ (w : World) (log : List (Event × Effect)), OpenSetInvariant w (log.map Prod.snd) →
      OpenSetInvariant (run lowerCase uriToString w log events).1
        ((run lowerCase uriToString w log events).2.map Prod.snd) := by
  induction events with
  | nil => intro w log h; exact h
  | cons ev rest ih =>
    intro w log h
    simp only [run]
    apply ih
    rw [List.map_append, map_snd_tagged]
    exact step_preserves_invariant lowerCase uriToString w _ ev h

theorem invariant_of_nothing_open (w : World) (h : NothingOpen w) : OpenSetInvariant w [] := by
  intro language client path hget
  simp [StrMap.has, h language client hget path, pendingOpen]

/-! ### Auxiliary facts on who sends a did-close -/

theorem append_eq_split {α : Type} (log news before after : List α) (x : α)
    (h : log ++ news = before ++ x :: after) :
    (∃ rest, log = before ++ x :: rest ∧ after = rest ++ news) ∨
      (∃ front, before = log ++ front ∧ news = front ++ x :: after) := by
  rcases List.append_eq_append_iff.mp h with ⟨front, hb, hn⟩ | ⟨mid, hl, hx⟩
  · right; exact ⟨front, hb, hn⟩
  · cases mid with
    | nil =>
      right
      refine ⟨[], by simpa using hl.symm, by simpa using hx.symm⟩
    | cons y rest =>
      left
      simp only [List.cons_append, List.cons.injEq] at hx
      refine ⟨rest, ?_, hx.2⟩
      rw [hl, hx.1]

/-- A registered client stays registered, with its `_ROOT_URI_`, over one event. -/
theorem step_keeps_client (lowerCase uriToString : String → String) (w : World) (ev : Event)
    (language : String) (client : LanguageClient)
    (h : w.clients.get language = some client) :
    ∃ client2, (step lowerCase uriToString w ev).1.clients.get language = some client2 ∧
      client2._ROOT_URI_ = client._ROOT_URI_ := by
  cases ev with
  | autorun self =>
    simp only [step]
    rcases bindingAutorun_protocol lowerCase uriToString w self with ⟨hcl, _⟩ |
      ⟨lc0, file, hc, _, _, hcl, _⟩
    · rw [hcl]; exact ⟨client, h, rfl⟩
    · rw [hcl]
      simp only [World.setOpened, StrMap.get_set]
      by_cases hl : language = self.language
      · rw [if_pos hl]
        rw [hl, hc] at h
        cases h
        exact ⟨_, rfl, rfl⟩
      · rw [if_neg hl]; exact ⟨client, h, rfl⟩
  | unmount self =>
    simp only [step]
    rcases componentWillUnmount_protocol w self with ⟨hw, _⟩ | ⟨lc0, file, hc, _, _, hw, _⟩
    · rw [hw]; exact ⟨client, h, rfl⟩
    · rw [hw]
      simp only [World.deleteOpened, StrMap.get_set]
      by_cases hl : language = self.language
      · rw [if_pos hl]
        rw [hl, hc] at h
        cases h
        exact ⟨_, rfl, rfl⟩
      · rw [if_neg hl]; exact ⟨client, h, rfl⟩
  | clientState lang state =>
    cases hc : w.clients.get lang with
    | none => simp only [step, hc]; exact ⟨client, h, rfl⟩
    | some lc0 =>
      simp only [step, hc, StrMap.get_set]
      by_cases hl : language = lang
      · rw [if_pos hl]
        rw [hl, hc] at h
        cases h
        exact ⟨_, rfl, rfl⟩
      · rw [if_neg hl]; exact ⟨client, h, rfl⟩

/-- A run of the binding autorun sends no did-close. -/
theorem bindingAutorun_sends_no_close (lowerCase uriToString : String → String) (w : World)
    (self : MonacoEditor) (language uri : String) :
    Effect.closeTextDocument language uri ∉ (bindingAutorun lowerCase uriToString w self).effects := by
  intro hmem
  have hf : Effect.closeTextDocument language uri ∈
      (bindingAutorun lowerCase uriToString w self).effects.filter isProtocolCall :=
    List.mem_filter.mpr ⟨hmem, rfl⟩
  rcases bindingAutorun_protocol lowerCase uriToString w self with ⟨_, heff⟩ | ⟨_, _, _, _, _, _, heff⟩
  · rw [heff] at hf; cases hf
  · rw [heff] at hf; simp at hf

theorem mem_tagged (ev ev2 : Event) (e : Effect) (effects : List Effect)
    (h : (ev2, e) ∈ effects.map (fun x => (ev, x))) : ev2 = ev ∧ e ∈ effects := by
  simp only [List.mem_map, Prod.mk.injEq] at h
  obtain ⟨x, hx, h1, h2⟩ := h
  exact ⟨h1.symm, h2 ▸ hx⟩

/-- One event keeps the open-set invariant and the justification of every
did-close. -/
theorem step_preserves_justified (lowerCase uriToString : String → String) (w : World)
    (log : List (Event × Effect)) (ev : Event)
    (hinv : OpenSetInvariant w (log.map Prod.snd)) (h : ClosesJustified w log) :
    ClosesJustified (step lowerCase uriToString w ev).1
      (log ++ (step lowerCase uriToString w ev).2.map (fun e => (ev, e))) := by
  intro before after ev2 language uri hsplit
  rcases append_eq_split _ _ _ _ _ hsplit with ⟨rest, hlog, _⟩ | ⟨front, hbefore, hnews⟩
  · obtain ⟨self, client, file, hev, hlang, hfile, hget, huri, hpend⟩ :=
      h before rest ev2 language uri hlog
    obtain ⟨client2, hget2, hroot⟩ := step_keeps_client lowerCase uriToString w ev language client hget
    exact ⟨self, client2, file, hev, hlang, hfile, hget2,
      by rw [huri]; exact fileUri_congr client client2 _ hroot.symm, hpend⟩
  · have hmem : (ev2, Effect.closeTextDocument language uri) ∈
        (step lowerCase uriToString w ev).2.map (fun e => (ev, e)) := by
      rw [hnews]; simp
    obtain ⟨hev, hin⟩ := mem_tagged _ _ _ _ hmem
    subst hev
    cases ev2 with
    | autorun self =>
      exact absurd hin (bindingAutorun_sends_no_close lowerCase uriToString w self language uri)
    | clientState lang state =>
      exfalso
      cases hc : w.clients.get lang <;> simp [step, hc] at hin
    | unmount self =>
      simp only [step] at hin hnews ⊢
      rcases componentWillUnmount_protocol w self with ⟨_, heff⟩ |
        ⟨lc0, file, hc, hf, ht, hw, heff⟩
      · rw [heff] at hin; cases hin
      · rw [heff] at hin hnews
        simp only [List.mem_singleton, Effect.closeTextDocument.injEq] at hin
        obtain ⟨hlang, huri⟩ := hin
        have hfront : front = [] := by
          cases front with
          | nil => rfl
          | cons y ys =>
            have hlen := congrArg List.length hnews
            simp at hlen
        subst hfront
        rw [List.append_nil] at hbefore
        refine ⟨self, { lc0 with openeduri := lc0.openeduri.delete file.path }, file, rfl,
          hlang.symm, hf, ?_, ?_, ?_⟩
        · rw [hw, hlang]; simp [World.deleteOpened, StrMap.get_set]
        · rw [huri]; rfl
        · rw [hbefore, ← pendingOpen_iff, hlang, huri]
          exact (hinv self.language lc0 file.path hc).mp (truthy_has _ ht)

/-- A sequence of events keeps the open-set invariant and the justification of
every did-close. -/
theorem run_preserves_justified (lowerCase uriToString : String → String) (events : List Event) :
    ∀ (w : World) (log : List (Event × Effect)), OpenSetInvariant w (log.map Prod.snd) →
      ClosesJustified w log → ClosesJustified (run lowerCase uriToString w log events).1
        (run lowerCase uriToString w log events).2 := by
  induction events with
  | nil => intro w log _ h; exact h
  | cons ev rest ih =>
    intro w log hinv h
    simp only [run]
    apply ih
    · rw [List.map_append, map_snd_tagged]
      exact step_preserves_invariant lowerCase uriToString w _ ev hinv
    · exact step_preserves_justified lowerCase uriToString w log ev hinv h

/-- The method `componentWillUnmount` when the stored content is truthy. -/
theorem componentWillUnmount_of_truthy (w : World) (self : MonacoEditor)
    (languageClient : LanguageClient) (file : FileRecord)
    (hc : w.clients.get self.language = some languageClient)
    (hf : self.editor.file = some file)
    (ht : truthy (languageClient.openeduri.get file.path) = true) :
    componentWillUnmount w self =
      { world := w.deleteOpened self.language languageClient file.path,
        self := { self with didmount := false },
        effects := [Effect.closeTextDocument self.language (fileUri languageClient file.path)],
        threw := false } := by
  simp [componentWillUnmount, hc, hf, ht]

/-- In `world0` no client has a document in `openeduri`. -/
theorem Scenario.world0_nothing_open : NothingOpen Scenario.world0 := by
  intro language client hget path
  simp only [Scenario.world0, StrMap.get_set, StrMap.empty] at hget
  split at hget
  · cases hget; rfl
  · cases hget

/-! ### Content-change handler -/

/-- C7 (counterexample). An editor that has a FileRecord but no `tab` prop
(`tab` is `undefined`) gets a content change: the handler makes no `updateFile`
call and schedules no save, and leaves `isSynced` as it was, although the editor
has a FileRecord. -/
theorem content_change_without_tab_persists_nothing :
    (Scenario.untabbed "e1" "x").editor.file =
        some { id := "f1", path := "/a.js", content := "x", isSynced := true } ∧
      (onDidChangeModelContent (Scenario.untabbed "e1" "x") "xy").effects = [] ∧
      (onDidChangeModelContent (Scenario.untabbed "e1" "x") "xy").self.editor.file =
        some { id := "f1", path := "/a.js", content := "x", isSynced := true } ∧
      (onDidChangeModelContent (Scenario.untabbed "e1" "x") "xy").self.currentValue =
        some "xy" := by
  decide

/-- C7 (amended). On every content-changed event the handler sets `currentValue`
to the editor's value; when the editor has a FileRecord and the `tab` prop read
by `componentDidMount` is truthy, it sets `isSynced` to false, calls `updateFile`
with the file id and the value, and after that schedules the debounced
`file:save`; when the FileRecord is missing or `tab` is falsy (`undefined`, or
an empty string) it does none of these. -/
theorem content_change_persists_iff_file_and_tab (self : MonacoEditor) (value : String) :
    (onDidChangeModelContent self value).self.currentValue = some value ∧
    (∀ file, self.editor.file = some file → truthy self.tab = true →
      (onDidChangeModelContent self value).effects =
        [Effect.updateFile file.id value, Effect.debounced "file:save"] ∧
      (onDidChangeModelContent self value).self.editor.file =
        some { file with isSynced := false }) ∧
    ((self.editor.file = none ∨ truthy self.tab = false) →
      (onDidChangeModelContent self value).effects = [] ∧
      (onDidChangeModelContent self value).self.editor.file = self.editor.file) := by
  refine ⟨?_, ?_, ?_⟩
  · cases hf : self.editor.file <;> cases ht : truthy self.tab <;>
      simp [onDidChangeModelContent, hf, ht]
  · intro file hf ht
    simp [onDidChangeModelContent, hf, ht]
  · intro h
    rcases h with h | h
    · simp [onDidChangeModelContent, h]
    · cases hf : self.editor.file <;> simp [onDidChangeModelContent, h, hf]

/-- C7 (witness). The editor `e1` on `/a.js`, in a tab, gets the value `xy`. -/
theorem content_change_persists_witness :
    (onDidChangeModelContent (Scenario.editorOn "e1" "x") "xy").effects =
        [Effect.updateFile "f1" "xy", Effect.debounced "file:save"] ∧
      (onDidChangeModelContent (Scenario.editorOn "e1" "x") "xy").self.editor.file =
        some { id := "f1", path := "/a.js", content := "x", isSynced := false } :=
  (content_change_persists_iff_file_and_tab (Scenario.editorOn "e1" "x") "xy").2.1
    { id := "f1", path := "/a.js", content := "x", isSynced := true } rfl rfl

/-! ### The empty-content defect of the `openeduri.get(path)` tests -/

/-- C1 (failing input). The editor `e1` on the empty file `/a.js`, active and
mounted, client Running: the first run creates the model and sends the did-open;
the second run, with nothing changed in between, sends the did-open again.
(`lowerCase` is the identity on `javascript`.) -/
theorem rerun_resends_did_open_for_empty_file :
    (Scenario.firstRun "").effects =
        [Effect.createModel "" "javascript" "file:///ws/a.js",
          Effect.dispose "inmemory://model/e1",
          Effect.setModel
            { handle := 2, value := "", languageId := "javascript", uri := "file:///ws/a.js" },
          Effect.openTextDocument "javascript" "file:///ws/a.js" "javascript" "" 1] ∧
      (bindingAutorun id Scenario.uriToString (Scenario.firstRun "").world (Scenario.firstRun "").self).effects =
        [Effect.setModel
            { handle := 2, value := "", languageId := "javascript", uri := "file:///ws/a.js" },
          Effect.openTextDocument "javascript" "file:///ws/a.js" "javascript" "" 1] := by
  decide

/-- C2 (failing input). After the did-open of the empty file `/a.js` the path is
a key of `openeduri`; a run of the binding autorun of a second editor `e2` on
that file sends a did-open all the same. -/
theorem did_open_sent_for_path_already_in_openeduri :
    Scenario.jsHas (Scenario.firstRun "").world "/a.js" = some true ∧
      (bindingAutorun id Scenario.uriToString (Scenario.firstRun "").world (Scenario.editorOn "e2" "")).effects =
        [Effect.setModel
            { handle := 2, value := "", languageId := "javascript", uri := "file:///ws/a.js" },
          Effect.openTextDocument "javascript" "file:///ws/a.js" "javascript" "" 1] := by
  decide

/-- C3 (failing input). With `/a.js` a key of `openeduri` under the empty
content, `componentWillUnmount` of the editor on `/a.js` makes no call at all and
the path stays a key of `openeduri`. -/
theorem unmount_sends_no_close_for_empty_stored_content :
    Scenario.jsHas Scenario.worldEmptyOpen "/a.js" = some true ∧
      (componentWillUnmount Scenario.worldEmptyOpen (Scenario.editorOn "e1" "")).effects = [] ∧
      Scenario.jsHas
        (componentWillUnmount Scenario.worldEmptyOpen (Scenario.editorOn "e1" "")).world
        "/a.js" = some true := by
  decide

/-- C5 (failing input). Round trip on the empty file `/a.js`: the run of the
binding autorun sends the did-open, the `componentWillUnmount` that follows sends
no did-close, and `openeduri` still contains the path. -/
theorem round_trip_leaves_empty_file_in_openeduri :
    Effect.openTextDocument "javascript" "file:///ws/a.js" "javascript" "" 1 ∈
        (Scenario.firstRun "").effects ∧
      (componentWillUnmount (Scenario.firstRun "").world (Scenario.firstRun "").self).effects
        = [] ∧
      Scenario.jsHas
        (componentWillUnmount (Scenario.firstRun "").world (Scenario.firstRun "").self).world
        "/a.js" = some true := by
  decide

/-! ### Nothing to close, no client -/

/-- C9. When no client is registered for the editor's language, or one is
registered and the path of the editor's file is not a key of its `openeduri`,
`componentWillUnmount` makes no call and leaves the shared state (so `openeduri`)
as it was; and a run of the binding autorun with no client registered makes no
call (no protocol call, no `createModel`, `setModel` or `dispose`) and changes
nothing. -/
theorem no_call_without_client_or_open_path (lowerCase uriToString : String → String) (w : World)
    (self : MonacoEditor)
    (h : w.clients.get self.language = none ∨
      ∃ languageClient, w.clients.get self.language = some languageClient ∧
        ∀ file, self.editor.file = some file →
          languageClient.openeduri.has file.path = false) :
    (componentWillUnmount w self).effects = [] ∧ (componentWillUnmount w self).world = w ∧
      (w.clients.get self.language = none →
        (bindingAutorun lowerCase uriToString w self).effects = [] ∧
        (bindingAutorun lowerCase uriToString w self).world = w) := by
  refine ⟨?_, ?_, ?_⟩
  · rcases h with h | ⟨languageClient, hc, hp⟩
    · simp [componentWillUnmount, h]
    · cases hf : self.editor.file with
      | none => simp [componentWillUnmount, hc, hf]
      | some file =>
        have hget : languageClient.openeduri.get file.path = none := by
          simpa [StrMap.has] using hp file hf
        simp [componentWillUnmount, hc, hf, hget, truthy]
  · rcases h with h | ⟨languageClient, hc, hp⟩
    · simp [componentWillUnmount, h]
    · cases hf : self.editor.file with
      | none => simp [componentWillUnmount, hc, hf]
      | some file =>
        have hget : languageClient.openeduri.get file.path = none := by
          simpa [StrMap.has] using hp file hf
        simp [componentWillUnmount, hc, hf, hget, truthy]
  · intro hnone
    simp [bindingAutorun, hnone]

/-- C9 (witness). The editor `e1` on `/a.js` with the `javascript` client
registered and nothing in `openeduri`. -/
theorem no_call_without_client_or_open_path_witness :
    (componentWillUnmount Scenario.world0 (Scenario.editorOn "e1" "x")).effects = [] ∧
      (componentWillUnmount Scenario.world0 (Scenario.editorOn "e1" "x")).world =
        Scenario.world0 :=
  have h := no_call_without_client_or_open_path id Scenario.uriToString Scenario.world0 (Scenario.editorOn "e1" "x")
    (Or.inr ⟨Scenario.jsClient, rfl, fun _ _ => rfl⟩)
  ⟨h.1, h.2.1⟩

/-! ### Disposal of the scratch model -/

/-- C10 (counterexample). The editor `e1` on `/a.js`, no model registered for
the file, a scratch model registered for `e1` whose `dispose` throws: the run
creates the model, calls `dispose`, ends by the exception and never calls
`setModel`. The editor `e3`, for which no scratch model is registered: the run
creates the model and ends on `tmpModel.dispose()` without calling `setModel`. -/
theorem failed_disposal_blocks_set_model :
    ((bindingAutorun id Scenario.uriToString Scenario.worldDisposeThrows (Scenario.editorOn "e1" "x")).effects =
        [Effect.createModel "x" "javascript" "file:///ws/a.js",
          Effect.dispose "inmemory://model/e1"] ∧
      (bindingAutorun id Scenario.uriToString Scenario.worldDisposeThrows (Scenario.editorOn "e1" "x")).threw
        = true) ∧
    ((bindingAutorun id Scenario.uriToString Scenario.world0 (Scenario.editorOn "e3" "x")).effects =
        [Effect.createModel "x" "javascript" "file:///ws/a.js"] ∧
      (bindingAutorun id Scenario.uriToString Scenario.world0 (Scenario.editorOn "e3" "x")).threw = true) := by
  decide

/-- C10 (amended). In a run of the binding autorun that creates a new model for
the file URI (the lookup finds none and `createModel` registers one) while a
scratch model is registered for the editor: when `dispose` of the scratch model
returns, the run goes on and passes the created model, and no other, to
`setModel`; when `dispose` throws, the run ends there and makes no `setModel`
call. -/
theorem set_model_iff_disposal_returns (lowerCase uriToString : String → String) (w : World)
    (self : MonacoEditor) (languageClient : LanguageClient) (file : FileRecord)
    (tmpModel : TextModel)
    (hc : w.clients.get self.language = some languageClient)
    (hf : self.editor.file = some file)
    (hnew : w.models.get (fileUri languageClient file.path) = none)
    (hfree : w.models.get (uriToString (fileUri languageClient file.path)) = none)
    (htmp : w.models.get (scratchUri self.editor.id) = some tmpModel) :
    Effect.createModel file.content (lowerCase self.language)
        (fileUri languageClient file.path) ∈
      (bindingAutorun lowerCase uriToString w self).effects ∧
    (w.disposeThrows (scratchUri self.editor.id) = false →
      (bindingAutorun lowerCase uriToString w self).threw = false ∧
      (bindingAutorun lowerCase uriToString w self).effects.filter isSetModel =
        [Effect.setModel
          { handle := w.nextHandle, value := file.content,
            languageId := lowerCase self.language,
            uri := uriToString (fileUri languageClient file.path) }]) ∧
    (w.disposeThrows (scratchUri self.editor.id) = true →
      (bindingAutorun lowerCase uriToString w self).threw = true ∧
      (bindingAutorun lowerCase uriToString w self).effects.filter isSetModel = []) := by
  cases hd : w.disposeThrows (scratchUri self.editor.id) with
  | false =>
    obtain ⟨w1, self1, hm, _⟩ := lookupOrCreateModel_fresh lowerCase uriToString w self
      languageClient file.path file.content tmpModel hnew hfree htmp hd
    rw [bindingAutorun_of_model lowerCase uriToString w w1 self self1 languageClient file _ _
      hc hf hm]
    simp [List.filter_append, filter_isSetModel_sendDidOpen,
      filter_isSetModel_restoreSelection, isSetModel]
  | true =>
    obtain ⟨w1, self1, hm⟩ := lookupOrCreateModel_dispose_throws lowerCase uriToString w self
      languageClient file.path file.content tmpModel hnew hfree htmp hd
    rw [bindingAutorun_of_throw lowerCase uriToString w w1 self self1 languageClient file _
      hc hf hm]
    simp [isSetModel]

/-- C10 (witness). The editor `e1` on `/a.js` in `world0`, where its scratch model
is registered and `dispose` returns. -/
theorem set_model_iff_disposal_returns_witness :
    (bindingAutorun id Scenario.uriToString Scenario.world0 (Scenario.editorOn "e1" "x")).threw = false ∧
      (bindingAutorun id Scenario.uriToString Scenario.world0 (Scenario.editorOn "e1" "x")).effects.filter isSetModel =
        [Effect.setModel
          { handle := 2, value := "x", languageId := "javascript",
            uri := "file:///ws/a.js" }] :=
  (set_model_iff_disposal_returns id Scenario.uriToString Scenario.world0 (Scenario.editorOn "e1" "x")
    Scenario.jsClient { id := "f1", path := "/a.js", content := "x", isSynced := true }
    (Scenario.scratch 0 "e1") rfl rfl rfl rfl rfl).2.1 rfl

/-! ### One model per URI -/

/-- C6 (failing input). Two editors `e1` and `e2` on the file `/a b.js` with the
same client, no model registered for it. The run of `e1` looks the model up under
`file:///ws/a b.js`, finds none, and creates it; monaco registers it under the
parsed URI `file:///ws/a%20b.js`. The lookup of `e2` under `file:///ws/a b.js`
still finds no model, so the run of `e2` calls `createModel` again; that call
throws, and the run of `e2` never calls `setModel`. -/
theorem second_editor_creates_model_again_for_encoded_path :
    (bindingAutorun id Scenario.uriToString Scenario.world0
        (Scenario.editorAt "e1" "/a b.js" "x")).effects =
      [Effect.createModel "x" "javascript" "file:///ws/a b.js",
        Effect.dispose "inmemory://model/e1",
        Effect.setModel
          { handle := 2, value := "x", languageId := "javascript",
            uri := "file:///ws/a%20b.js" },
        Effect.openTextDocument "javascript" "file:///ws/a b.js" "javascript" "x" 1] ∧
    (bindingAutorun id Scenario.uriToString Scenario.world0
        (Scenario.editorAt "e1" "/a b.js" "x")).world.models.get "file:///ws/a b.js" = none ∧
    (bindingAutorun id Scenario.uriToString
        (bindingAutorun id Scenario.uriToString Scenario.world0
          (Scenario.editorAt "e1" "/a b.js" "x")).world
        (Scenario.editorAt "e2" "/a b.js" "x")).effects =
      [Effect.createModel "x" "javascript" "file:///ws/a b.js"] ∧
    (bindingAutorun id Scenario.uriToString
        (bindingAutorun id Scenario.uriToString Scenario.world0
          (Scenario.editorAt "e1" "/a b.js" "x")).world
        (Scenario.editorAt "e2" "/a b.js" "x")).threw = true := by
  decide

/-- Where the slip does not show. Two editors `e1` and `e2` whose files have the
same path and that share a language client; the document URI string is its own
parsed form; no model is registered for it, and the scratch model of `e1` is
registered and its `dispose` returns. Then the run of `e1` followed by the run
of `e2` calls `createModel` once, in the run of `e1`; the `getModel` lookup of
`e2` returns the model created by `e1`; each run passes that model, and no
other, to `setModel`. And in general a run calls `createModel` only when the
lookup under the URI string finds no model. -/
theorem one_model_per_plain_uri (lowerCase uriToString : String → String) (w : World)
    (e1 e2 : MonacoEditor)
    (languageClient : LanguageClient) (file1 file2 : FileRecord) (tmpModel : TextModel)
    (hc : w.clients.get e1.language = some languageClient)
    (hl : e2.language = e1.language)
    (hf1 : e1.editor.file = some file1) (hf2 : e2.editor.file = some file2)
    (hp : file2.path = file1.path)
    (hplain : uriToString (fileUri languageClient file1.path) =
      fileUri languageClient file1.path)
    (hnew : w.models.get (fileUri languageClient file1.path) = none)
    (htmp : w.models.get (scratchUri e1.editor.id) = some tmpModel)
    (hd : w.disposeThrows (scratchUri e1.editor.id) = false) :
    (bindingAutorun lowerCase uriToString w e1).effects.filter isCreateModel =
        [Effect.createModel file1.content (lowerCase e1.language)
          (fileUri languageClient file1.path)] ∧
      (bindingAutorun lowerCase uriToString (bindingAutorun lowerCase uriToString w e1).world
        e2).effects.filter isCreateModel = [] ∧
      (∀ client2,
        (bindingAutorun lowerCase uriToString w e1).world.clients.get e2.language =
          some client2 →
        (bindingAutorun lowerCase uriToString w e1).world.models.get
            (fileUri client2 file2.path) =
          some { handle := w.nextHandle, value := file1.content,
                 languageId := lowerCase e1.language,
                 uri := fileUri languageClient file1.path }) ∧
      (bindingAutorun lowerCase uriToString w e1).effects.filter isSetModel =
        [Effect.setModel { handle := w.nextHandle, value := file1.content,
                           languageId := lowerCase e1.language,
                           uri := fileUri languageClient file1.path }] ∧
      (bindingAutorun lowerCase uriToString (bindingAutorun lowerCase uriToString w e1).world
        e2).effects.filter isSetModel =
        [Effect.setModel { handle := w.nextHandle, value := file1.content,
                           languageId := lowerCase e1.language,
                           uri := fileUri languageClient file1.path }] ∧
      (∀ (w2 : World) (self : MonacoEditor) (v l u : String),
        Effect.createModel v l u ∈ (bindingAutorun lowerCase uriToString w2 self).effects →
          w2.models.get u = none) := by
  obtain ⟨w1, self1, hm, hw1, hs1, hget⟩ := lookupOrCreateModel_fresh lowerCase uriToString w e1
    languageClient file1.path file1.content tmpModel hnew (by rw [hplain]; exact hnew) htmp hd
  rw [hplain] at hm hget
  have hr1 := bindingAutorun_of_model lowerCase uriToString w w1 e1 self1 languageClient file1
    _ _ hc hf1 hm
  have hc1 : w1.clients.get self1.language = some languageClient := by rw [hw1, hs1]; exact hc
  -- the lookup of `e2` in the state left by `e1`
  have hlook : ∀ client2,
      (bindingAutorun lowerCase uriToString w e1).world.clients.get e2.language = some client2 →
      (bindingAutorun lowerCase uriToString w e1).world.models.get (fileUri client2 file2.path) =
        some { handle := w.nextHandle, value := file1.content,
               languageId := lowerCase e1.language,
               uri := fileUri languageClient file1.path } := by
    intro client2 h2
    rw [hr1] at h2 ⊢
    rw [hl, ← hs1] at h2
    have hroot := sendDidOpen_rootUri lowerCase w1 self1 languageClient client2 _ _ hc1 h2
    rw [fileUri_congr client2 languageClient _ hroot, hp]
    simp only [sendDidOpen_models]
    exact hget
  refine ⟨?_, ?_, hlook, ?_, ?_, bindingAutorun_created lowerCase uriToString⟩
  · rw [hr1]
    simp [List.filter_append, filter_isCreateModel_sendDidOpen,
      filter_isCreateModel_restoreSelection, isCreateModel]
  · cases hc2 : (bindingAutorun lowerCase uriToString w e1).world.clients.get e2.language with
    | none => rw [bindingAutorun_of_no_client lowerCase uriToString _ e2 hc2]; rfl
    | some client2 =>
      have hr2 := bindingAutorun_of_model lowerCase uriToString _ _ e2 _ client2 file2 _ _
        hc2 hf2
        (lookupOrCreateModel_found lowerCase uriToString _ e2 client2 file2.path
          file2.content _ (hlook client2 hc2))
      rw [hr2]
      simp [List.filter_append, filter_isCreateModel_sendDidOpen,
        filter_isCreateModel_restoreSelection, isCreateModel]
  · rw [hr1]
    simp [List.filter_append, filter_isSetModel_sendDidOpen,
      filter_isSetModel_restoreSelection, isSetModel]
  · cases hc2 : (bindingAutorun lowerCase uriToString w e1).world.clients.get e2.language with
    | none =>
      exfalso
      rw [hr1, hl, ← hs1] at hc2
      rw [sendDidOpen_eq] at hc2
      split at hc2
      · simp [World.setOpened, StrMap.set] at hc2
      · rw [hc1] at hc2; cases hc2
    | some client2 =>
      have hr2 := bindingAutorun_of_model lowerCase uriToString _ _ e2 _ client2 file2 _ _
        hc2 hf2
        (lookupOrCreateModel_found lowerCase uriToString _ e2 client2 file2.path
          file2.content _ (hlook client2 hc2))
      rw [hr2]
      simp [List.filter_append, filter_isSetModel_sendDidOpen,
        filter_isSetModel_restoreSelection, isSetModel]

/-! ### The open-set invariant -/

/-- C4. Start from a state where no client has a document in `openeduri` and
from an empty call log, and let any sequence of binding-autorun runs and
`componentWillUnmount` calls of any editors (and connection-state changes) happen.
Then for every registered client a path is a key of `openeduri` if and only if a
did-open for the document of that path has been sent on that client and no
did-close for it has been sent since. -/
theorem openeduri_iff_open_pending (lowerCase uriToString : String → String) (w : World)
    (events : List Event) (hfresh : NothingOpen w)
    (language : String) (client : LanguageClient) (path : String)
    (hget : (run lowerCase uriToString w [] events).1.clients.get language = some client) :
    client.openeduri.has path = true ↔
      OpenPending language (fileUri client path)
        ((run lowerCase uriToString w [] events).2.map Prod.snd) := by
  rw [← pendingOpen_iff]
  exact run_preserves_invariant lowerCase uriToString events w [] (invariant_of_nothing_open w hfresh)
    language client path hget

/-- C4 (witness). From `world0`: the editor `e1` opens `/a.js`, the editor `e2` on
the same file is unmounted, then `e2` (mounted again) runs its binding autorun;
at the end `/a.js` is a key of `openeduri` and its last did-open is pending. -/
theorem openeduri_iff_open_pending_witness :
    NothingOpen Scenario.world0 ∧
      ((((StrMap.empty.set "/a.js" "x").delete "/a.js").set "/a.js" "x").has "/a.js" = true ↔
        OpenPending "javascript" "file:///ws/a.js"
          ((run id Scenario.uriToString Scenario.world0 []
            [Event.autorun (Scenario.editorOn "e1" "x"),
              Event.unmount (Scenario.editorOn "e2" "x"),
              Event.autorun (Scenario.editorOn "e2" "x")]).2.map Prod.snd)) :=
  ⟨Scenario.world0_nothing_open,
    openeduri_iff_open_pending id Scenario.uriToString Scenario.world0
      [Event.autorun (Scenario.editorOn "e1" "x"),
        Event.unmount (Scenario.editorOn "e2" "x"),
        Event.autorun (Scenario.editorOn "e2" "x")] Scenario.world0_nothing_open "javascript"
      { Scenario.jsClient with
        openeduri := ((StrMap.empty.set "/a.js" "x").delete "/a.js").set "/a.js" "x" }
      "/a.js" rfl⟩

/-! ### Who sends the did-close -/

/-- C8 (counterexample). The editors `e1` and `e2` are on `/a.js` with the same
client. Only `e1` runs its binding autorun and sends the did-open; then `e2` is
unmounted: its `componentWillUnmount` sends the did-close and the path is no
longer a key of `openeduri`. -/
theorem did_close_sent_by_other_editor :
    (run id Scenario.uriToString Scenario.world0 []
        [Event.autorun (Scenario.editorOn "e1" "x"),
          Event.unmount (Scenario.editorOn "e2" "x")]).2 =
      [(Event.autorun (Scenario.editorOn "e1" "x"),
          Effect.createModel "x" "javascript" "file:///ws/a.js"),
        (Event.autorun (Scenario.editorOn "e1" "x"), Effect.dispose "inmemory://model/e1"),
        (Event.autorun (Scenario.editorOn "e1" "x"),
          Effect.setModel
            { handle := 2, value := "x", languageId := "javascript", uri := "file:///ws/a.js" }),
        (Event.autorun (Scenario.editorOn "e1" "x"),
          Effect.openTextDocument "javascript" "file:///ws/a.js" "javascript" "x" 1),
        (Event.unmount (Scenario.editorOn "e2" "x"),
          Effect.closeTextDocument "javascript" "file:///ws/a.js")] ∧
      Scenario.jsHas
        (run id Scenario.uriToString Scenario.world0 []
          [Event.autorun (Scenario.editorOn "e1" "x"),
            Event.unmount (Scenario.editorOn "e2" "x")]).1 "/a.js" = some false := by
  decide

/-- C8 (amended). In every sequence of binding-autorun runs and
`componentWillUnmount` calls of editor instances, started with nothing open, each
did-close is sent by the `componentWillUnmount` of an editor instance whose
language and file path are those of the closed document, at a moment when a
did-open for that document (sent by this or by any other instance) is pending.
And when `e1` and `e2` are on the same path with the same client, the content is
not empty and `e1` has sent the did-open, unmounting `e2` sends the did-close
and removes the path from `openeduri`. -/
theorem did_close_sent_by_unmount_on_open_path (lowerCase uriToString : String → String) :
    (∀ (w : World) (events : List Event) (before after : List (Event × Effect)) (ev : Event)
        (language uri : String),
      NothingOpen w →
      (run lowerCase uriToString w [] events).2 =
        before ++ (ev, Effect.closeTextDocument language uri) :: after →
      ∃ self client file, ev = Event.unmount self ∧ self.language = language ∧
        self.editor.file = some file ∧
        (run lowerCase uriToString w [] events).1.clients.get language = some client ∧
        uri = fileUri client file.path ∧ OpenPending language uri (before.map Prod.snd)) ∧
    (∀ (w : World) (e1 e2 : MonacoEditor) (client : LanguageClient) (file1 file2 : FileRecord),
      w.clients.get e1.language = some client → e2.language = e1.language →
      e1.editor.file = some file1 → e2.editor.file = some file2 → file2.path = file1.path →
      file1.content ≠ "" →
      Effect.openTextDocument e1.language (fileUri client file1.path) (lowerCase e1.language)
        file1.content 1 ∈ (bindingAutorun lowerCase uriToString w e1).effects →
      (componentWillUnmount (bindingAutorun lowerCase uriToString w e1).world e2).effects =
          [Effect.closeTextDocument e2.language (fileUri client file2.path)] ∧
        ∀ client2,
          (componentWillUnmount (bindingAutorun lowerCase uriToString w e1).world e2).world.clients.get
              e2.language = some client2 →
            client2.openeduri.has file2.path = false) := by
  constructor
  · intro w events before after ev language uri hfresh hlog
    have hj := run_preserves_justified lowerCase uriToString events w []
      (invariant_of_nothing_open w hfresh)
      (by intro b a e l u hnil; cases b <;> simp at hnil)
    exact hj before after ev language uri hlog
  · intro w e1 e2 client file1 file2 hc hl hf1 hf2 hp hcontent hopen
    have hfilter : Effect.openTextDocument e1.language (fileUri client file1.path)
        (lowerCase e1.language) file1.content 1 ∈
        (bindingAutorun lowerCase uriToString w e1).effects.filter isProtocolCall :=
      List.mem_filter.mpr ⟨hopen, rfl⟩
    rcases bindingAutorun_protocol lowerCase uriToString w e1 with ⟨_, heff⟩ |
      ⟨lc0, file, hc0, hf0, _, hcl, _⟩
    · rw [heff] at hfilter; cases hfilter
    · rw [hc] at hc0; cases hc0
      rw [hf1] at hf0; cases hf0
      have hget : (bindingAutorun lowerCase uriToString w e1).world.clients.get e2.language =
          some { client with
            openeduri := client.openeduri.set file1.path file1.content } := by
        rw [hcl, hl]; simp [World.setOpened, StrMap.get_set]
      have ht : truthy (({ client with
            openeduri := client.openeduri.set file1.path file1.content } :
            LanguageClient).openeduri.get file2.path) = true := by
        simp [StrMap.get_set, hp, truthy, hcontent]
      rw [componentWillUnmount_of_truthy _ e2 _ file2 hget hf2 ht]
      refine ⟨rfl, ?_⟩
      intro client2 h2
      simp only [World.deleteOpened, StrMap.get_set, if_true] at h2
      cases h2
      simp [StrMap.has, StrMap.get_delete]

/-- C8 (witness). From `world0`, the editor `e1` opens `/a.js` and the editor `e2`
on the same file is unmounted: the did-close in the log was sent by the unmount
of `e2`, while the did-open of `e1` was pending. -/
theorem did_close_sent_by_unmount_on_open_path_witness :
    (∃ self client file,
      Event.unmount (Scenario.editorOn "e2" "x") = Event.unmount self ∧
      self.language = "javascript" ∧ self.editor.file = some file ∧
      (run id Scenario.uriToString Scenario.world0 []
        [Event.autorun (Scenario.editorOn "e1" "x"),
          Event.unmount (Scenario.editorOn "e2" "x")]).1.clients.get "javascript"
        = some client ∧
      "file:///ws/a.js" = fileUri client file.path ∧
      OpenPending "javascript" "file:///ws/a.js"
        [Effect.createModel "x" "javascript" "file:///ws/a.js",
          Effect.dispose "inmemory://model/e1",
          Effect.setModel
            { handle := 2, value := "x", languageId := "javascript", uri := "file:///ws/a.js" },
          Effect.openTextDocument "javascript" "file:///ws/a.js" "javascript" "x" 1]) ∧
      (componentWillUnmount
          (bindingAutorun id Scenario.uriToString Scenario.world0 (Scenario.editorOn "e1" "x")).world
          (Scenario.editorOn "e2" "x")).effects =
        [Effect.closeTextDocument "javascript" "file:///ws/a.js"] :=
  ⟨(did_close_sent_by_unmount_on_open_path id Scenario.uriToString).1 Scenario.world0
    [Event.autorun (Scenario.editorOn "e1" "x"), Event.unmount (Scenario.editorOn "e2" "x")]
    [(Event.autorun (Scenario.editorOn "e1" "x"),
        Effect.createModel "x" "javascript" "file:///ws/a.js"),
      (Event.autorun (Scenario.editorOn "e1" "x"), Effect.dispose "inmemory://model/e1"),
      (Event.autorun (Scenario.editorOn "e1" "x"),
        Effect.setModel
          { handle := 2, value := "x", languageId := "javascript", uri := "file:///ws/a.js" }),
      (Event.autorun (Scenario.editorOn "e1" "x"),
        Effect.openTextDocument "javascript" "file:///ws/a.js" "javascript" "x" 1)]
    [] (Event.unmount (Scenario.editorOn "e2" "x")) "javascript" "file:///ws/a.js"
    Scenario.world0_nothing_open (by decide),
    ((did_close_sent_by_unmount_on_open_path id Scenario.uriToString).2 Scenario.world0 (Scenario.editorOn "e1" "x")
      (Scenario.editorOn "e2" "x") Scenario.jsClient
      { id := "f1", path := "/a.js", content := "x", isSynced := true }
      { id := "f1", path := "/a.js", content := "x", isSynced := true }
      rfl rfl rfl rfl rfl (by decide) (by decide)).1⟩

end WebIDE
